import Mathlib

/-!
Shallow embedding of the factor-dashboard front-end script
(the revision with the aligned master date axis): the series store,
the alignment and cumulative-return walk of `plotChart`, the stats
loading of `loadPrecomputedStats`, the performance-table rendering of
`updateAnalysisTable`, and the audio playback state machine of
`handleAudioPlay` / `resetAudioButton`.

Dates are modelled as natural numbers (the millisecond timestamps
produced by `Date.getTime()`).  Returns and metric values are taken in
an arbitrary linear ordered commutative ring `R` (the script only ever
adds and multiplies them); instantiating `R` at `ℚ` or `ℝ` gives the
exact-arithmetic reading of the JavaScript numbers.  The JavaScript
`null` used for "the series has not started yet" is modelled by
`Option.none`.
-/

set_option linter.unusedSectionVars false

namespace FactorViz

variable {R : Type} [LinearOrderedCommRing R] [DecidableEq R]

/-- One `{ date, ret }` observation of a factor's return series, as stored
in `factorTimeSeriesData`. -/
structure Obs (R : Type) where
  date : Nat
  ret  : R
deriving DecidableEq

/-- A factor's time series: the array stored under its name in
`factorTimeSeriesData`. -/
abbrev Series (R : Type) := List (Obs R)

/-- The `factorTimeSeriesData` map, as an association list from factor
name to series. -/
abbrev Store (R : Type) := List (String × Series R)

/-- `factorTimeSeriesData.get(name)`: `undefined` (here `none`) when the
name has no entry. -/
def Store.get (store : Store R) (name : String) : Option (Series R) :=
  (store.find? (fun p => p.1 == name)).map Prod.snd

/-- The dates contributed by one selected factor to the master axis:
`series.forEach(d => allDates.add(d.date.getTime()))`, guarded by
`if (series)`; a missing series contributes nothing. -/
def seriesDates (store : Store R) (name : String) : List Nat :=
  ((Store.get store name).getD []).map Obs.date

/-- The `allDates` set of `plotChart` (a JavaScript `Set`), as the list of
distinct dates present in any selected factor's series. -/
def allDates (sel : List String) (store : Store R) : List Nat :=
  ((sel.map (seriesDates store)).flatten).dedup

/-- `masterDateArray = Array.from(allDates).sort((a, b) => a - b)`:
the ascending numeric sort of the duplicate-free date set.  Sorting a
duplicate-free list of numbers ascending is insensitive to the initial
order, so insertion sort produces exactly the array the JavaScript sort
does. -/
def masterDateArray (sel : List String) (store : Store R) : List Nat :=
  List.insertionSort (· ≤ ·) (allDates sel store)

/-- One insertion step of the JavaScript `Map` constructor: a later entry
with the same key overwrites an earlier one. -/
def mapInsert (m : Nat → Option R) (o : Obs R) : Nat → Option R :=
  fun d => if d = o.date then some o.ret else m d

/-- `returnMap = new Map(series.map(d => [d.date.getTime(), d.ret]))`:
the entries are inserted in stored order, so for a duplicated date the
last observation wins. -/
def returnMap (s : Series R) : Nat → Option R :=
  s.foldl mapInsert (fun _ => none)

/-- The body of the per-date walk of `plotChart`:
`if (returnMap.has(dateMs)) { if (cumulativeValue === null) cumulativeValue = 1;
cumulativeValue *= (1 + returnMap.get(dateMs)); }`. -/
def alignStep (rm : Nat → Option R) (cum : Option R) (d : Nat) : Option R :=
  match rm d with
  | some r => some (cum.getD 1 * (1 + r))
  | none => cum

/-- `masterDateArray.map(dateMs => ...)` with the mutable `cumulativeValue`
threaded through: each emitted point is `{ x: dateMs, y: cumulativeValue }`
with the value *after* the update for that date. -/
def alignPoints (rm : Nat → Option R) : Option R → List Nat → List (Nat × Option R)
  | _, [] => []
  | cum, d :: ds =>
      (d, alignStep rm cum d) :: alignPoints rm (alignStep rm cum d) ds

/-- The dataset built for one selected factor:
`if (!series || series.length === 0) return null;` otherwise the aligned
data points over the given axis. -/
def factorDataPoints (store : Store R) (axis : List Nat) (name : String) :
    Option (List (Nat × Option R)) :=
  match Store.get store name with
  | none => none
  | some s => if s.isEmpty then none else some (alignPoints (returnMap s) none axis)

/-- The `datasets` array of `plotChart`:
`selectedFactors.map(name => ...).filter(Boolean)`, each surviving entry
keeping its factor name (the label) and aligned data points. -/
def align (sel : List String) (store : Store R) : List (String × List (Nat × Option R)) :=
  sel.filterMap (fun name =>
    (factorDataPoints store (masterDateArray sel store) name).map (fun pts => (name, pts)))

/-! ### Basic lemmas about the master date axis -/

theorem masterDateArray_sorted_le (sel : List String) (store : Store R) :
    (masterDateArray sel store).Sorted (· ≤ ·) :=
  List.sorted_insertionSort _ _

theorem masterDateArray_perm (sel : List String) (store : Store R) :
    List.Perm (masterDateArray sel store) (allDates sel store) :=
  List.perm_insertionSort _ _

theorem masterDateArray_nodup (sel : List String) (store : Store R) :
    (masterDateArray sel store).Nodup :=
  ((masterDateArray_perm sel store).nodup_iff).2 (List.nodup_dedup _)

theorem masterDateArray_sorted_lt (sel : List String) (store : Store R) :
    (masterDateArray sel store).Sorted (· < ·) :=
  ((masterDateArray_sorted_le sel store).and
    (masterDateArray_nodup sel store)).imp (fun h => lt_of_le_of_ne h.1 h.2)

theorem mem_masterDateArray {sel : List String} {store : Store R} {d : Nat} :
    d ∈ masterDateArray sel store ↔ d ∈ (sel.map (seriesDates store)).flatten := by
  rw [(masterDateArray_perm sel store).mem_iff]
  exact List.mem_dedup

theorem length_masterDateArray (sel : List String) (store : Store R) :
    (masterDateArray sel store).length = ((sel.map (seriesDates store)).flatten).dedup.length :=
  (masterDateArray_perm sel store).length_eq

/-! ### Basic lemmas about the return map and the alignment walk -/

theorem returnMap_eq_find? (s : Series R) (d : Nat) :
    returnMap s d = (s.reverse.find? (fun o => o.date == d)).map Obs.ret := by
  have key : ∀ (t : List (Obs R)) (m : Nat → Option R),
      (t.foldr (fun o m2 => mapInsert m2 o) m) d =
        match t.find? (fun o => o.date == d) with
        | some o => some o.ret
        | none => m d := by
    intro t
    induction t with
    | nil => intro m; simp [List.find?]
    | cons o t ih =>
        intro m
        by_cases h : o.date = d
        · simp [List.find?, h, mapInsert, List.foldr]
        · have hb : (o.date == d) = false := by simp [h]
          simp only [List.foldr, List.find?, hb, mapInsert]
          rw [if_neg (fun hd => h hd.symm)]
          exact ih m
  have h1 : returnMap s d = (s.reverse.foldr (fun o m2 => mapInsert m2 o) (fun _ => none)) d := by
    unfold returnMap
    rw [← List.foldl_reverse]
    simp
  rw [h1, key]
  cases hf : s.reverse.find? (fun o => o.date == d) <;> simp

theorem returnMap_eq_none_iff {s : Series R} {d : Nat} :
    returnMap s d = none ↔ ∀ o ∈ s, o.date ≠ d := by
  rw [returnMap_eq_find?]
  cases hf : s.reverse.find? (fun o => o.date == d) with
  | none =>
      simp only [Option.map_none', true_iff]
      intro o ho hod
      rw [List.find?_eq_none] at hf
      exact hf o (List.mem_reverse.2 ho) (by simp [hod])
  | some o =>
      simp only [Option.map_some']
      constructor
      · intro h
        exact absurd h (by simp)
      · intro hall
        exfalso
        have ho := List.mem_reverse.1 (List.mem_of_find?_eq_some hf)
        have hpo := List.find?_some hf
        exact hall o ho (by simpa using hpo)

theorem returnMap_eq_some {s : Series R} {d : Nat} {r : R}
    (h : returnMap s d = some r) : ∃ o ∈ s, o.date = d ∧ o.ret = r := by
  rw [returnMap_eq_find?] at h
  cases hf : s.reverse.find? (fun o => o.date == d) with
  | none => rw [hf] at h; simp at h
  | some o =>
      rw [hf] at h
      refine ⟨o, List.mem_reverse.1 (List.mem_of_find?_eq_some hf), ?_, ?_⟩
      · have := List.find?_some hf
        simpa using this
      · simpa using h

theorem length_alignPoints (rm : Nat → Option R) :
    ∀ (cum : Option R) (axis : List Nat), (alignPoints rm cum axis).length = axis.length
  | _, [] => rfl
  | cum, _ :: ds => by
      simp [alignPoints, length_alignPoints rm _ ds]

theorem alignPoints_getElem? (rm : Nat → Option R) :
    ∀ (axis : List Nat) (cum : Option R) (i : Nat) (d : Nat),
      axis[i]? = some d →
      (alignPoints rm cum axis)[i]? =
        some (d, (axis.take (i + 1)).foldl (alignStep rm) cum)
  | [], _, i, _, h => by simp at h
  | a :: axis, cum, 0, d, h => by
      simp only [List.getElem?_cons_zero, Option.some.injEq] at h
      subst h
      simp [alignPoints, List.take]
  | a :: axis, cum, i + 1, d, h => by
      simp only [List.getElem?_cons_succ] at h
      have ih := alignPoints_getElem? rm axis (alignStep rm cum a) i d h
      simpa [alignPoints, List.take] using ih

theorem foldl_alignStep_of_forall_none {rm : Nat → Option R} :
    ∀ {l : List Nat} (cum : Option R), (∀ d ∈ l, rm d = none) →
      l.foldl (alignStep rm) cum = cum
  | [], _, _ => rfl
  | d :: ds, cum, h => by
      have hd : rm d = none := h d (by simp)
      have step : alignStep rm cum d = cum := by simp [alignStep, hd]
      simp only [List.foldl, step]
      exact foldl_alignStep_of_forall_none cum (fun x hx => h x (by simp [hx]))

theorem mem_take_iff_of_sorted {l : List Nat} (hs : l.Sorted (· < ·)) {i d : Nat}
    (hd : l[i]? = some d) (x : Nat) : x ∈ l.take (i + 1) ↔ x ∈ l ∧ x ≤ d := by
  obtain ⟨hi, hdi⟩ := List.getElem?_eq_some_iff.1 hd
  have hpw := List.pairwise_iff_getElem.1 hs
  constructor
  · intro hx
    obtain ⟨j, hj⟩ := List.mem_iff_getElem?.1 hx
    by_cases hji : j < i + 1
    · have hlj : l[j]? = some x := by rw [← List.getElem?_take_of_lt hji]; exact hj
      obtain ⟨hjlen, hx2⟩ := List.getElem?_eq_some_iff.1 hlj
      refine ⟨List.mem_iff_getElem?.2 ⟨j, hlj⟩, ?_⟩
      rcases Nat.lt_or_ge j i with hlt | hge
      · have hlt2 := hpw j i hjlen hi hlt
        rw [hx2, hdi] at hlt2
        exact le_of_lt hlt2
      · have hji2 : j = i := by omega
        subst hji2
        rw [hx2] at hdi
        exact le_of_eq hdi
    · exfalso
      have hnone : (l.take (i + 1))[j]? = none := by
        refine List.getElem?_eq_none ?_
        rw [List.length_take]
        omega
      rw [hnone] at hj
      cases hj
  · rintro ⟨hxl, hxd⟩
    obtain ⟨j, hj⟩ := List.mem_iff_getElem?.1 hxl
    obtain ⟨hjlen, hx2⟩ := List.getElem?_eq_some_iff.1 hj
    have hji : j < i + 1 := by
      by_contra hge
      have hij : i < j := by omega
      have hlt2 := hpw i j hi hjlen hij
      rw [hx2, hdi] at hlt2
      omega
    exact List.mem_iff_getElem?.2 ⟨j, by rw [List.getElem?_take_of_lt hji]; exact hj⟩

/-- Inverting `factorDataPoints ... = some pts`: the factor has a
non-empty series and `pts` is its alignment walk over the axis. -/
theorem factorDataPoints_eq_some {store : Store R} {axis : List Nat} {name : String}
    {pts : List (Nat × Option R)}
    (h : factorDataPoints store axis name = some pts) :
    ∃ s, Store.get store name = some s ∧ s ≠ [] ∧
      pts = alignPoints (returnMap s) none axis := by
  unfold factorDataPoints at h
  split at h
  · cases h
  · rename_i s hget
    split at h
    · cases h
    · rename_i hemp
      refine ⟨s, hget, ?_, (Option.some_inj.1 h).symm⟩
      intro hnil
      rw [hnil] at hemp
      exact hemp rfl

/-- Looking up the head observation's date in the return map of a series
whose tail lies strictly later returns the head's return. -/
theorem returnMap_head {o0 : Obs R} {tl : Series R}
    (hlt : ∀ o ∈ tl, o0.date < o.date) :
    returnMap (o0 :: tl) o0.date = some o0.ret := by
  rw [returnMap_eq_find?]
  have hrev : (o0 :: tl).reverse = tl.reverse ++ [o0] := by simp
  rw [hrev, List.find?_append]
  have hnone : tl.reverse.find? (fun o => o.date == o0.date) = none := by
    rw [List.find?_eq_none]
    intro o ho hbeq
    have hmem := List.mem_reverse.1 ho
    have := hlt o hmem
    simp at hbeq
    omega
  rw [hnone]
  simp [List.find?]

/-- The first observation's date of a selected factor with a non-empty
series is on the master axis. -/
theorem headDate_mem_masterDateArray {sel : List String} {store : Store R}
    {name : String} {o0 : Obs R} {tl : Series R}
    (hmem : name ∈ sel) (hget : Store.get store name = some (o0 :: tl)) :
    o0.date ∈ masterDateArray sel store := by
  rw [mem_masterDateArray]
  rw [List.mem_flatten]
  refine ⟨seriesDates store name, List.mem_map_of_mem _ hmem, ?_⟩
  rw [seriesDates, hget]
  simp

/-! ### The claims -/

/-- C3: for a selection of 1 to 5 factors, the master axis is the
deduplicated ascending union of the selected series' dates — its length
is the number of distinct dates, it is strictly ascending, and every
emitted aligned sequence has the axis length. -/
theorem c3_master_axis (sel : List String) (store : Store R)
    (hsel : 1 ≤ sel.length ∧ sel.length ≤ 5) :
    (masterDateArray sel store).length
        = ((sel.map (seriesDates store)).flatten).dedup.length ∧
    (masterDateArray sel store).Sorted (· < ·) ∧
    ∀ p ∈ align sel store, p.2.length = (masterDateArray sel store).length := by
  refine ⟨length_masterDateArray sel store, masterDateArray_sorted_lt sel store, ?_⟩
  intro p hp
  obtain ⟨name, _hname, hmap⟩ := List.mem_filterMap.1 hp
  cases hfp : factorDataPoints store (masterDateArray sel store) name with
  | none => rw [hfp] at hmap; cases hmap
  | some pts =>
      rw [hfp] at hmap
      obtain ⟨s, _, _, hpts⟩ := factorDataPoints_eq_some hfp
      have hp2 : p = (name, pts) := by simpa using hmap.symm
      rw [hp2, hpts]
      exact length_alignPoints _ _ _

/-- Concrete witness store over `ℤ`: two factors with overlapping date
ranges. -/
def wstore : Store ℤ := [("X", [⟨10, 1⟩, ⟨20, 2⟩]), ("Y", [⟨5, 0⟩, ⟨20, 3⟩])]

theorem c3_master_axis_witness :
    (1 ≤ (["X", "Y"] : List String).length ∧ (["X", "Y"] : List String).length ≤ 5) ∧
    (masterDateArray ["X", "Y"] wstore).length
      = ((["X", "Y"].map (seriesDates wstore)).flatten).dedup.length :=
  ⟨by decide, (c3_master_axis ["X", "Y"] wstore (by decide)).1⟩

/-- C1: if a selected factor's (sorted, non-empty) series first observes at
axis index `k`, every aligned point before `k` carries the absent marker
and the point at `k` is `1 * (1 + return at the first observation)`. -/
theorem c1_first_point (sel : List String) (store : Store R) (name : String)
    (o0 : Obs R) (tl : Series R)
    (hmem : name ∈ sel)
    (hget : Store.get store name = some (o0 :: tl))
    (hsorted : (o0 :: tl).Pairwise (fun a b => a.date < b.date))
    (k : Nat) (hk : (masterDateArray sel store).indexOf o0.date = k)
    (pts : List (Nat × Option R))
    (hpts : factorDataPoints store (masterDateArray sel store) name = some pts) :
    (∀ i < k, ∃ d, pts[i]? = some (d, (none : Option R))) ∧
    pts[k]? = some (o0.date, some (1 * (1 + o0.ret))) := by
  obtain ⟨s, hget2, _hne, hptsEq⟩ := factorDataPoints_eq_some hpts
  rw [hget] at hget2
  have hs : o0 :: tl = s := Option.some_inj.1 hget2
  subst hs
  have htail : ∀ o ∈ tl, o0.date < o.date := fun o ho =>
    (List.pairwise_cons.1 hsorted).1 o ho
  have hmin : ∀ o, o ∈ o0 :: tl → o0.date ≤ o.date := by
    intro o ho
    rcases List.mem_cons.1 ho with h | h
    · rw [h]
    · exact le_of_lt (htail o h)
  have haxmem : o0.date ∈ masterDateArray sel store :=
    headDate_mem_masterDateArray hmem hget
  have hklen : k < (masterDateArray sel store).length := by
    rw [← hk]
    exact List.indexOf_lt_length.2 haxmem
  have haxk? : (masterDateArray sel store)[k]? = some o0.date := by
    have h0 := List.getElem?_indexOf haxmem
    rw [hk] at h0
    exact h0
  obtain ⟨_, haxk⟩ := List.getElem?_eq_some_iff.1 haxk?
  have hsortlt := masterDateArray_sorted_lt sel store
  have hpw := List.pairwise_iff_getElem.1 hsortlt
  -- any axis entry strictly before index k is strictly before the first
  -- observation date, hence absent from the return map
  have hrm_none : ∀ j, j < k → ∀ d, (masterDateArray sel store)[j]? = some d →
      returnMap (o0 :: tl) d = none := by
    intro j hjk d hjd
    obtain ⟨hjlen, hjval⟩ := List.getElem?_eq_some_iff.1 hjd
    have hlt := hpw j k hjlen hklen hjk
    rw [hjval, haxk] at hlt
    rw [returnMap_eq_none_iff]
    intro o ho hod
    have := hmin o ho
    omega
  have htake : ∀ m, m ≤ k → ∀ d ∈ (masterDateArray sel store).take m,
      returnMap (o0 :: tl) d = none := by
    intro m hm d hd
    obtain ⟨j, hj⟩ := List.mem_iff_getElem?.1 hd
    obtain ⟨hjlen, _⟩ := List.getElem?_eq_some_iff.1 hj
    rw [List.length_take] at hjlen
    have hjm : j < m := lt_of_lt_of_le hjlen (min_le_left _ _)
    have hax : (masterDateArray sel store)[j]? = some d := by
      rw [← List.getElem?_take_of_lt hjm]
      exact hj
    exact hrm_none j (lt_of_lt_of_le hjm hm) d hax
  constructor
  · intro i hik
    have hilen : i < (masterDateArray sel store).length := lt_trans hik hklen
    have hdi : (masterDateArray sel store)[i]? = some (masterDateArray sel store)[i] :=
      List.getElem?_eq_getElem hilen
    refine ⟨(masterDateArray sel store)[i], ?_⟩
    rw [hptsEq]
    rw [alignPoints_getElem? _ _ _ _ _ hdi]
    have : ((masterDateArray sel store).take (i + 1)).foldl
        (alignStep (returnMap (o0 :: tl))) none = none :=
      foldl_alignStep_of_forall_none none (htake (i + 1) hik)
    rw [this]
  · rw [hptsEq]
    rw [alignPoints_getElem? _ _ _ _ _ haxk?]
    rw [List.take_succ, haxk?]
    rw [List.foldl_append]
    have hfirst : ((masterDateArray sel store).take k).foldl
        (alignStep (returnMap (o0 :: tl))) none = none :=
      foldl_alignStep_of_forall_none none (htake k (le_refl k))
    rw [hfirst]
    have hhead := returnMap_head (R := R) htail
    simp [alignStep, hhead]

theorem c1_first_point_witness :
    (∀ i < 1, ∃ d, (([(5, none), (10, some 2), (20, some 6)] :
        List (Nat × Option ℤ)))[i]? = some (d, (none : Option ℤ))) ∧
    (([(5, none), (10, some 2), (20, some 6)] : List (Nat × Option ℤ)))[1]?
      = some (10, some (1 * (1 + (1 : ℤ)))) :=
  c1_first_point ["X", "Y"] wstore "X" ⟨10, 1⟩ [⟨20, 2⟩] (by decide) (by decide)
    (by decide) 1 (by decide) _ (by decide)

/-- C2: at a master-axis date where a selected factor has no observation of
its own, the aligned value is the absent marker when the date precedes the
factor's first observation, and otherwise carries the preceding axis
date's value forward unchanged. -/
theorem c2_carry_forward (sel : List String) (store : Store R) (name : String)
    (o0 : Obs R) (tl : Series R)
    (hmem : name ∈ sel)
    (hget : Store.get store name = some (o0 :: tl))
    (hsorted : (o0 :: tl).Pairwise (fun a b => a.date < b.date))
    (pts : List (Nat × Option R))
    (hpts : factorDataPoints store (masterDateArray sel store) name = some pts)
    (j d : Nat) (hd : (masterDateArray sel store)[j]? = some d)
    (hnoobs : ∀ o ∈ o0 :: tl, o.date ≠ d) :
    (d < o0.date → pts[j]? = some (d, (none : Option R))) ∧
    (o0.date < d → ∀ i, j = i + 1 →
      (pts[j]?).map Prod.snd = (pts[i]?).map Prod.snd) := by
  obtain ⟨s, hget2, _hne, hptsEq⟩ := factorDataPoints_eq_some hpts
  rw [hget] at hget2
  have hs : o0 :: tl = s := Option.some_inj.1 hget2
  subst hs
  have htail : ∀ o ∈ tl, o0.date < o.date := fun o ho =>
    (List.pairwise_cons.1 hsorted).1 o ho
  have hmin : ∀ o, o ∈ o0 :: tl → o0.date ≤ o.date := by
    intro o ho
    rcases List.mem_cons.1 ho with h | h
    · rw [h]
    · exact le_of_lt (htail o h)
  have hrmd : returnMap (o0 :: tl) d = none :=
    returnMap_eq_none_iff.2 hnoobs
  have hsortlt := masterDateArray_sorted_lt sel store
  constructor
  · intro hbefore
    rw [hptsEq]
    rw [alignPoints_getElem? _ _ _ _ _ hd]
    have hnone : ((masterDateArray sel store).take (j + 1)).foldl
        (alignStep (returnMap (o0 :: tl))) none = none := by
      refine foldl_alignStep_of_forall_none none ?_
      intro e he
      obtain ⟨hel, hed⟩ := (mem_take_iff_of_sorted hsortlt hd e).1 he
      rw [returnMap_eq_none_iff]
      intro o ho hoe
      have := hmin o ho
      omega
    rw [hnone]
  · intro _hafter i hji
    subst hji
    rw [hptsEq]
    have hilen : i < (masterDateArray sel store).length := by
      obtain ⟨hjlen, _⟩ := List.getElem?_eq_some_iff.1 hd
      omega
    have hdi : (masterDateArray sel store)[i]? = some (masterDateArray sel store)[i] :=
      List.getElem?_eq_getElem hilen
    rw [alignPoints_getElem? _ _ _ _ _ hd, alignPoints_getElem? _ _ _ _ _ hdi]
    rw [List.take_succ (n := i + 1), hd]
    rw [List.foldl_append]
    have hstep : alignStep (returnMap (o0 :: tl))
        (((masterDateArray sel store).take (i + 1)).foldl
          (alignStep (returnMap (o0 :: tl))) none) d
        = ((masterDateArray sel store).take (i + 1)).foldl
            (alignStep (returnMap (o0 :: tl))) none := by
      simp [alignStep, hrmd]
    simp [hstep]

theorem c2_carry_forward_witness :
    (([(5, none), (10, some 2), (20, some 6)] : List (Nat × Option ℤ)))[0]?
      = some (5, (none : Option ℤ)) :=
  (c2_carry_forward ["X", "Y"] wstore "X" ⟨10, 1⟩ [⟨20, 2⟩] (by decide) (by decide)
    (by decide) _ (by decide) 0 5 (by decide) (by decide)).1 (by decide)

/-- Store refuting C5 as stated: factor X observes only at dates 1 and 3,
factor Y at 1, 2 and 3, so the master axis contains date 2, which is not
one of X's own dates. -/
def cstore5 : Store ℤ := [("X", [⟨1, 1⟩, ⟨3, 1⟩]), ("Y", [⟨1, 0⟩, ⟨2, 0⟩, ⟨3, 0⟩])]

/-- C5 counterexample: at master-axis date 2, which is not in X's own
series, X's aligned point carries the defined (carried-forward) value 2,
not the absent marker — the factor does contribute a non-absent point at a
date absent from its own series. -/
theorem c5_counterexample :
    (2 : Nat) ∈ masterDateArray ["X", "Y"] cstore5 ∧
    (2 : Nat) ∉ (([⟨1, 1⟩, ⟨3, 1⟩] : Series ℤ).map Obs.date) ∧
    factorDataPoints cstore5 (masterDateArray ["X", "Y"] cstore5) "X"
      = some [(1, some 2), (2, some 2), (3, some 4)] := by decide

/-- C5 (amended): a factor's aligned value is newly computed only at dates
of its own series: at an axis date not in its own series the value is the
absent marker at the start of the axis, and otherwise exactly the
preceding point's value (no interpolation or new computation). -/
theorem c5_no_new_value (store : Store R) (axis : List Nat) (name : String)
    (pts : List (Nat × Option R))
    (hpts : factorDataPoints store axis name = some pts)
    (s : Series R) (hget : Store.get store name = some s) :
    (∀ d, axis[0]? = some d → d ∉ s.map Obs.date →
      pts[0]? = some (d, (none : Option R))) ∧
    (∀ i d, axis[i + 1]? = some d → d ∉ s.map Obs.date →
      (pts[i + 1]?).map Prod.snd = (pts[i]?).map Prod.snd) := by
  obtain ⟨s2, hget2, _hne, hptsEq⟩ := factorDataPoints_eq_some hpts
  rw [hget] at hget2
  have hs : s = s2 := Option.some_inj.1 hget2
  subst hs
  have hrm : ∀ d, d ∉ s.map Obs.date → returnMap s d = none := by
    intro d hd
    rw [returnMap_eq_none_iff]
    intro o ho hod
    have := List.mem_map_of_mem Obs.date ho
    rw [hod] at this
    exact hd this
  constructor
  · intro d hd hnotmem
    rw [hptsEq]
    rw [alignPoints_getElem? _ _ _ _ _ hd]
    have h1 : axis.take 1 = [] ++ [d] := by
      rw [List.take_succ (n := 0), hd]
      simp
    rw [h1]
    simp [alignStep, hrm d hnotmem]
  · intro i d hd hnotmem
    rw [hptsEq]
    have hilen : i < axis.length := by
      obtain ⟨hjlen, _⟩ := List.getElem?_eq_some_iff.1 hd
      omega
    have hdi : axis[i]? = some axis[i] := List.getElem?_eq_getElem hilen
    rw [alignPoints_getElem? _ _ _ _ _ hd, alignPoints_getElem? _ _ _ _ _ hdi]
    rw [List.take_succ (n := i + 1), hd]
    rw [List.foldl_append]
    simp [alignStep, hrm d hnotmem]

theorem c5_no_new_value_witness :
    (([(1, some 2), (2, some 2), (3, some 4)] :
        List (Nat × Option ℤ))[1]?).map Prod.snd
      = (([(1, some 2), (2, some 2), (3, some 4)] :
        List (Nat × Option ℤ))[0]?).map Prod.snd :=
  (c5_no_new_value cstore5 (masterDateArray ["X", "Y"] cstore5) "X" _ (by decide)
    [⟨1, 1⟩, ⟨3, 1⟩] (by decide)).2 0 2 (by decide) (by decide)

/-- Dates without an entry in the return map are no-ops of the alignment
walk: the fold only depends on the dates the factor observes. -/
theorem foldl_alignStep_filter (rm : Nat → Option R) :
    ∀ (l : List Nat) (cum : Option R),
      l.foldl (alignStep rm) cum
        = (l.filter (fun d => (rm d).isSome)).foldl (alignStep rm) cum
  | [], _ => rfl
  | d :: ds, cum => by
      rw [List.filter_cons]
      by_cases h : (rm d).isSome
      · rw [if_pos (by simpa using h)]
        simp only [List.foldl]
        exact foldl_alignStep_filter rm ds _
      · rw [if_neg (by simpa using h)]
        have hstep : alignStep rm cum d = cum := by
          cases hrm : rm d with
          | some r => rw [hrm] at h; simp at h
          | none => simp [alignStep, hrm]
        simp only [List.foldl, hstep]
        exact foldl_alignStep_filter rm ds cum

/-- A date the factor observes is always on the master axis of a selection
containing the factor. -/
theorem active_mem_masterDateArray {sel : List String} {store : Store R}
    {name : String} {s : Series R}
    (hmem : name ∈ sel) (hget : Store.get store name = some s) {x : Nat}
    (hx : (returnMap s x).isSome) : x ∈ masterDateArray sel store := by
  rw [mem_masterDateArray, List.mem_flatten]
  obtain ⟨r, hr⟩ := Option.isSome_iff_exists.1 hx
  obtain ⟨o, ho, hod, _⟩ := returnMap_eq_some hr
  refine ⟨seriesDates store name, List.mem_map_of_mem _ hmem, ?_⟩
  rw [seriesDates, hget]
  have := List.mem_map_of_mem Obs.date ho
  rw [hod] at this
  exact this

/-- C4: adding a further factor `g` to the selection never changes the
aligned value an already-selected factor has at any given date: the value
at a date is the same in the run on `sel` and in the run on `sel ++ [g]`. -/
theorem c4_insertion_invariant (sel : List String) (store : Store R) (g name : String)
    (s : Series R)
    (hmem : name ∈ sel)
    (hget : Store.get store name = some s)
    (pts1 pts2 : List (Nat × Option R))
    (h1 : factorDataPoints store (masterDateArray sel store) name = some pts1)
    (h2 : factorDataPoints store (masterDateArray (sel ++ [g]) store) name = some pts2)
    (i j d : Nat)
    (hd1 : (masterDateArray sel store)[i]? = some d)
    (hd2 : (masterDateArray (sel ++ [g]) store)[j]? = some d) :
    (pts1[i]?).map Prod.snd = (pts2[j]?).map Prod.snd := by
  obtain ⟨s1, hg1, _, hp1⟩ := factorDataPoints_eq_some h1
  obtain ⟨s2, hg2, _, hp2⟩ := factorDataPoints_eq_some h2
  rw [hget] at hg1 hg2
  have hs1 : s = s1 := Option.some_inj.1 hg1
  have hs2 : s = s2 := Option.some_inj.1 hg2
  subst hs1
  rw [← hs2] at hp2
  rw [hp1, hp2]
  rw [alignPoints_getElem? _ _ _ _ _ hd1, alignPoints_getElem? _ _ _ _ _ hd2]
  simp only [Option.map_some']
  have hkey : ((masterDateArray sel store).take (i + 1)).foldl
      (alignStep (returnMap s)) none
      = ((masterDateArray (sel ++ [g]) store).take (j + 1)).foldl
          (alignStep (returnMap s)) none := by
    rw [foldl_alignStep_filter (returnMap s) ((masterDateArray sel store).take (i + 1)) none,
      foldl_alignStep_filter (returnMap s)
        ((masterDateArray (sel ++ [g]) store).take (j + 1)) none]
    have heq : ((masterDateArray sel store).take (i + 1)).filter
        (fun e => (returnMap s e).isSome)
        = ((masterDateArray (sel ++ [g]) store).take (j + 1)).filter
            (fun e => (returnMap s e).isSome) := by
      have hsort1 := masterDateArray_sorted_lt (R := R) sel store
      have hsort2 := masterDateArray_sorted_lt (R := R) (sel ++ [g]) store
      have hst1 : ((masterDateArray sel store).take (i + 1)).Sorted (· < ·) :=
        hsort1.sublist (List.take_sublist _ _)
      have hst2 : ((masterDateArray (sel ++ [g]) store).take (j + 1)).Sorted (· < ·) :=
        hsort2.sublist (List.take_sublist _ _)
      have hf1 : (((masterDateArray sel store).take (i + 1)).filter
          (fun e => (returnMap s e).isSome)).Sorted (· < ·) := hst1.filter _
      have hf2 : (((masterDateArray (sel ++ [g]) store).take (j + 1)).filter
          (fun e => (returnMap s e).isSome)).Sorted (· < ·) := hst2.filter _
      have hmemiff : ∀ x,
          x ∈ ((masterDateArray sel store).take (i + 1)).filter
            (fun e => (returnMap s e).isSome)
          ↔ x ∈ ((masterDateArray (sel ++ [g]) store).take (j + 1)).filter
              (fun e => (returnMap s e).isSome) := by
        intro x
        rw [List.mem_filter, List.mem_filter]
        rw [mem_take_iff_of_sorted hsort1 hd1, mem_take_iff_of_sorted hsort2 hd2]
        constructor
        · rintro ⟨⟨_, hxd⟩, hact⟩
          refine ⟨⟨?_, hxd⟩, hact⟩
          exact active_mem_masterDateArray (List.mem_append_left [g] hmem) hget
            (by simpa using hact)
        · rintro ⟨⟨_, hxd⟩, hact⟩
          refine ⟨⟨?_, hxd⟩, hact⟩
          exact active_mem_masterDateArray hmem hget (by simpa using hact)
      exact List.eq_of_perm_of_sorted
        ((List.perm_ext_iff_of_nodup (hf1.nodup) (hf2.nodup)).2 hmemiff)
        (hf1.imp le_of_lt) (hf2.imp le_of_lt)
    rw [heq]
  rw [hkey]

theorem c4_insertion_invariant_witness :
    ((([(10, some 2), (20, some 6)] : List (Nat × Option ℤ)))[1]?).map Prod.snd
      = ((([(5, none), (10, some 2), (20, some 6)] :
          List (Nat × Option ℤ)))[2]?).map Prod.snd :=
  c4_insertion_invariant ["X"] wstore "Y" "X" [⟨10, 1⟩, ⟨20, 2⟩] (by decide) (by decide)
    _ _ (by decide) (by decide) 1 2 20 (by decide) (by decide)

/-- Store refuting C6 as stated: a single observation with return `-2`
(a loss of more than 100%), which the code multiplies in unchecked. -/
def cstore6 : Store ℤ := [("X", [⟨0, -2⟩])]

/-- C6 counterexample: with a stored return of `-2` the only defined
aligned value is `1 * (1 + (-2)) = -1`, which is not positive — nothing in
the code constrains defined values to be positive for arbitrary loaded
stores. -/
theorem c6_counterexample :
    align ["X"] cstore6 = [("X", [(0, some (-1 : ℤ))])] ∧ ¬ (0 : ℤ) < -1 := by decide

/-- The alignment fold sends a positive-or-absent accumulator to a
positive value whenever every mapped return exceeds `-1`. -/
theorem foldl_alignStep_pos {rm : Nat → Option R}
    (hrm : ∀ e r, rm e = some r → 0 < 1 + r) :
    ∀ (l : List Nat) (cum : Option R), (∀ v, cum = some v → 0 < v) →
      ∀ v, l.foldl (alignStep rm) cum = some v → 0 < v
  | [], _, hc, v, h => hc v h
  | d :: ds, cum, hc, v, h => by
      refine foldl_alignStep_pos hrm ds (alignStep rm cum d) ?_ v h
      intro w hw
      cases hrmd : rm d with
      | none =>
          rw [alignStep, hrmd] at hw
          exact hc w hw
      | some r =>
          rw [alignStep, hrmd] at hw
          have h1 : 0 < (1 : R) + r := hrm d r hrmd
          have h0 : 0 < cum.getD 1 := by
            cases cum with
            | none => exact zero_lt_one
            | some c => exact hc c rfl
          have := mul_pos h0 h1
          rw [Option.some_inj.1 hw] at this
          exact this

/-- C6 (amended): provided every stored return exceeds `-1`, every defined
value of every emitted aligned sequence is positive.  (As stated without
that proviso the claim is false, see the counterexample.) -/
theorem c6_positive_values (sel : List String) (store : Store R)
    (hret : ∀ p ∈ store, ∀ o ∈ p.2, (-1 : R) < o.ret) :
    ∀ (name : String) (pts : List (Nat × Option R)), (name, pts) ∈ align sel store →
      ∀ (i d : Nat) (v : R), pts[i]? = some (d, some v) → 0 < v := by
  intro name pts hmem i d v hiv
  obtain ⟨nm, _hnm, hmap⟩ := List.mem_filterMap.1 hmem
  obtain ⟨pts0, hfp, hpair⟩ := Option.map_eq_some'.1 hmap
  have hname : nm = name := congrArg Prod.fst hpair
  have hpts0 : pts0 = pts := congrArg Prod.snd hpair
  subst hname hpts0
  obtain ⟨s, hget, _hne, hptsEq⟩ := factorDataPoints_eq_some hfp
  have hsmem : ∀ o ∈ s, (-1 : R) < o.ret := by
    intro o ho
    unfold Store.get at hget
    obtain ⟨p, hfind, hsnd⟩ := Option.map_eq_some'.1 hget
    have hp := List.mem_of_find?_eq_some hfind
    rw [← hsnd] at ho
    exact hret p hp o ho
  have hrm : ∀ e r, returnMap s e = some r → 0 < (1 : R) + r := by
    intro e r hr
    obtain ⟨o, ho, _, horet⟩ := returnMap_eq_some hr
    have := hsmem o ho
    rw [horet] at this
    linarith
  obtain ⟨hilen, _⟩ := List.getElem?_eq_some_iff.1 hiv
  rw [hptsEq] at hilen
  rw [length_alignPoints] at hilen
  have hdi : (masterDateArray sel store)[i]? = some (masterDateArray sel store)[i] :=
    List.getElem?_eq_getElem hilen
  rw [hptsEq, alignPoints_getElem? _ _ _ _ _ hdi] at hiv
  have hfold : ((masterDateArray sel store).take (i + 1)).foldl
      (alignStep (returnMap s)) none = some v := by
    have := Option.some_inj.1 hiv
    exact congrArg Prod.snd this
  exact foldl_alignStep_pos hrm _ none (by intro w hw; cases hw) v hfold

theorem c6_positive_values_witness : (0 : ℤ) < 2 :=
  c6_positive_values ["X", "Y"] wstore (by decide) "X"
    [(5, none), (10, some 2), (20, some 6)] (by decide) 1 10 2 (by decide)

/-- C10: when a series carries two or more observations on the same date,
the date-to-return lookup keeps only the last one in stored order, the
master axis lists the date exactly once, and the aligned walk multiplies
in exactly one `(1 + return)` factor for that date — the last duplicate's
return; the earlier duplicates are silently ignored. -/
theorem c10_duplicate_last_wins (sel : List String) (store : Store R) (name : String)
    (s : Series R) (d : Nat)
    (hget : Store.get store name = some s)
    (hdup : 2 ≤ (s.filter (fun o => o.date == d)).length)
    (i : Nat) (hax : (masterDateArray sel store)[i]? = some d)
    (pts : List (Nat × Option R))
    (hpts : factorDataPoints store (masterDateArray sel store) name = some pts) :
    returnMap s d = ((s.filter (fun o => o.date == d)).getLast?).map Obs.ret ∧
    (masterDateArray sel store).count d = 1 ∧
    ∀ o : Obs R, (s.filter (fun o2 => o2.date == d)).getLast? = some o →
      pts[i]? = some (d, some ((((masterDateArray sel store).take i).foldl
        (alignStep (returnMap s)) none).getD 1 * (1 + o.ret))) := by
  have hlast : returnMap s d = ((s.filter (fun o => o.date == d)).getLast?).map Obs.ret := by
    rw [returnMap_eq_find?, List.filter_getLast?]
  refine ⟨hlast, ?_, ?_⟩
  · exact List.count_eq_one_of_mem (masterDateArray_nodup sel store)
      (List.mem_iff_getElem?.2 ⟨i, hax⟩)
  · intro o ho
    obtain ⟨s2, hget2, _hne, hptsEq⟩ := factorDataPoints_eq_some hpts
    rw [hget] at hget2
    have hs : s = s2 := Option.some_inj.1 hget2
    subst hs
    have hrmd : returnMap s d = some o.ret := by
      rw [hlast, ho]
      rfl
    rw [hptsEq, alignPoints_getElem? _ _ _ _ _ hax]
    rw [List.take_succ, hax]
    rw [List.foldl_append]
    simp [alignStep, hrmd]

/-- Store with a duplicated date inside one series: two observations on
date 5 with returns 7 and 9. -/
def wstore10 : Store ℤ := [("X", [⟨5, 7⟩, ⟨5, 9⟩])]

theorem c10_duplicate_last_wins_witness :
    returnMap ([⟨5, 7⟩, ⟨5, 9⟩] : Series ℤ) 5
      = ((([⟨5, 7⟩, ⟨5, 9⟩] : Series ℤ).filter (fun o => o.date == 5)).getLast?).map Obs.ret ∧
    (([(5, some 10)] : List (Nat × Option ℤ)))[0]?
      = some (5, some ((((masterDateArray ["X"] wstore10).take 0).foldl
          (alignStep (returnMap ([⟨5, 7⟩, ⟨5, 9⟩] : Series ℤ))) none).getD 1
          * (1 + (⟨5, 9⟩ : Obs ℤ).ret))) :=
  ⟨(c10_duplicate_last_wins ["X"] wstore10 "X" [⟨5, 7⟩, ⟨5, 9⟩] 5 (by decide) (by decide)
      0 (by decide) [(5, some 10)] (by decide)).1,
   (c10_duplicate_last_wins ["X"] wstore10 "X" [⟨5, 7⟩, ⟨5, 9⟩] 5 (by decide) (by decide)
      0 (by decide) [(5, some 10)] (by decide)).2.2 ⟨5, 9⟩ (by decide)⟩

/-! ### The audio playback state machine -/

/-- A play button of the performance tables, identified by an index. -/
abbrev Control := Nat

/-- The script-and-DOM state of audio playback: the
`currentlyPlayingButton` reference, and for each button whether it shows
the active "Stop"/`playing` presentation. -/
structure AudioState where
  active : Option Control
  playing : Control → Bool

/-- `resetAudioButton()`: if a button is tracked as playing, restore its
idle "Play" presentation and clear `currentlyPlayingButton`. -/
def resetAudioButton (st : AudioState) : AudioState :=
  match st.active with
  | some a => { active := none, playing := fun b => if b = a then false else st.playing b }
  | none => st

/-- `handleAudioPlay(event)` for a click on play button `b`: clicking the
tracked button pauses and resets it; clicking a different button resets
the previous one (if any), starts the new source, marks `b` as playing
and tracks it. -/
def handleAudioPlay (st : AudioState) (b : Control) : AudioState :=
  if st.active = some b then
    { active := none, playing := fun x => if x = b then false else st.playing x }
  else
    let st1 := resetAudioButton st
    { active := some b, playing := fun x => if x = b then true else st1.playing x }

/-- The asynchronous audio events: a user click on a play button, natural
end of playback (the `ended` listener), and a load failure (the `error`
listener); the script wires the last two to `resetAudioButton`. -/
inductive AudioEvent where
  | click (b : Control)
  | ended
  | error
deriving DecidableEq

/-- Dispatch of one audio event. -/
def audioStep (st : AudioState) : AudioEvent → AudioState
  | .click b => handleAudioPlay st b
  | .ended => resetAudioButton st
  | .error => resetAudioButton st

/-- Page-load state: no tracked button, every button idle. -/
def audioInit : AudioState := { active := none, playing := fun _ => false }

/-- The state after a sequence of audio events from page load. -/
def audioRun (evs : List AudioEvent) : AudioState :=
  evs.foldl audioStep audioInit

/-- The audio invariant: a button shows the playing presentation exactly
when it is the tracked active button. -/
def AudioInv (st : AudioState) : Prop :=
  ∀ b, st.playing b = true ↔ st.active = some b

theorem audioInv_reset {st : AudioState} (h : AudioInv st) :
    AudioInv (resetAudioButton st) ∧ (resetAudioButton st).active = none := by
  cases hact : st.active with
  | none =>
      have hr : resetAudioButton st = st := by
        unfold resetAudioButton
        rw [hact]
      rw [hr]
      exact ⟨h, hact⟩
  | some a =>
      have hr : resetAudioButton st =
          { active := none, playing := fun b => if b = a then false else st.playing b } := by
        unfold resetAudioButton
        rw [hact]
      rw [hr]
      constructor
      · intro b
        constructor
        · intro hb
          by_cases hba : b = a
          · simp [hba] at hb
          · simp only [if_neg hba] at hb
            have h2 := (h b).1 hb
            rw [hact] at h2
            exact absurd (Option.some_inj.1 h2).symm hba
        · intro hb
          cases hb
      · rfl

theorem audioInv_step {st : AudioState} (h : AudioInv st) (e : AudioEvent) :
    AudioInv (audioStep st e) := by
  cases e with
  | ended => exact (audioInv_reset h).1
  | error => exact (audioInv_reset h).1
  | click b =>
      have hstep : audioStep st (.click b) = handleAudioPlay st b := rfl
      rw [hstep]
      unfold handleAudioPlay
      by_cases hab : st.active = some b
      · rw [if_pos hab]
        intro c
        constructor
        · intro hc
          by_cases hcb : c = b
          · simp [hcb] at hc
          · simp only [if_neg hcb] at hc
            have := (h c).1 hc
            rw [hab] at this
            exact absurd (Option.some_inj.1 this).symm hcb
        · intro hc
          cases hc
      · rw [if_neg hab]
        intro c
        constructor
        · intro hc
          by_cases hcb : c = b
          · rw [hcb]
          · simp only [if_neg hcb] at hc
            have hr := (audioInv_reset h).1
            have := (hr c).1 hc
            rw [(audioInv_reset h).2] at this
            cases this
        · intro hc
          have hcb : c = b := Option.some_inj.1 hc.symm
          simp [hcb]

theorem audioInv_run (evs : List AudioEvent) : AudioInv (audioRun evs) := by
  have key : ∀ (l : List AudioEvent) (st : AudioState), AudioInv st →
      AudioInv (l.foldl audioStep st) := by
    intro l
    induction l with
    | nil => intro st h; exact h
    | cons e l ih =>
        intro st h
        exact ih _ (audioInv_step h e)
  refine key evs audioInit ?_
  intro b
  constructor
  · intro hb; cases hb
  · intro hb; cases hb

/-- C7: after any event sequence at most one control is in the Playing
state; starting playback on `b` while `a` is active leaves exactly `b`
playing with `a` reset to the idle label; and clicking the active
control, natural end of playback, or a load error each return the machine
to the idle state with no active control and no playing button. -/
theorem c7_audio_mutual_exclusion (evs : List AudioEvent) :
    (∀ b1 b2 : Control, (audioRun evs).playing b1 = true →
        (audioRun evs).playing b2 = true → b1 = b2) ∧
    (∀ a b : Control, (audioRun evs).active = some a → a ≠ b →
      (audioStep (audioRun evs) (.click b)).active = some b ∧
      (audioStep (audioRun evs) (.click b)).playing b = true ∧
      (audioStep (audioRun evs) (.click b)).playing a = false ∧
      ∀ c : Control, (audioStep (audioRun evs) (.click b)).playing c = true → c = b) ∧
    (∀ b : Control, (audioRun evs).active = some b →
      (audioStep (audioRun evs) (.click b)).active = none ∧
      ∀ c : Control, (audioStep (audioRun evs) (.click b)).playing c = false) ∧
    ((audioStep (audioRun evs) .ended).active = none ∧
      ∀ c : Control, (audioStep (audioRun evs) .ended).playing c = false) ∧
    ((audioStep (audioRun evs) .error).active = none ∧
      ∀ c : Control, (audioStep (audioRun evs) .error).playing c = false) := by
  have hinv := audioInv_run evs
  have hreset : (resetAudioButton (audioRun evs)).active = none ∧
      ∀ c, (resetAudioButton (audioRun evs)).playing c = false := by
    refine ⟨(audioInv_reset hinv).2, ?_⟩
    intro c
    have hri := (audioInv_reset hinv).1
    by_cases hc : (resetAudioButton (audioRun evs)).playing c = true
    · have := (hri c).1 hc
      rw [(audioInv_reset hinv).2] at this
      cases this
    · exact Bool.not_eq_true _ ▸ Bool.eq_false_iff.2 hc
  refine ⟨?_, ?_, ?_, hreset, hreset⟩
  · intro b1 b2 h1 h2
    have e1 := (hinv b1).1 h1
    have e2 := (hinv b2).1 h2
    rw [e1] at e2
    exact Option.some_inj.1 e2
  · intro a b hact hab
    have hne : (audioRun evs).active ≠ some b := by
      rw [hact]
      intro hx
      exact hab (Option.some_inj.1 hx)
    constructor
    · simp [audioStep, handleAudioPlay, if_neg hne]
    constructor
    · simp [audioStep, handleAudioPlay, if_neg hne]
    constructor
    · have hba : ¬ a = b := hab
      simp only [audioStep, handleAudioPlay, if_neg hne]
      simp only [if_neg hba]
      unfold resetAudioButton
      rw [hact]
      simp
    · intro c hc
      by_contra hcb
      simp only [audioStep, handleAudioPlay, if_neg hne] at hc
      simp only [if_neg hcb] at hc
      have hri := (audioInv_reset hinv).1
      have := (hri c).1 hc
      rw [(audioInv_reset hinv).2] at this
      cases this
  · intro b hact
    have heq : (audioRun evs).active = some b := hact
    constructor
    · simp [audioStep, handleAudioPlay, if_pos heq]
    · intro c
      simp only [audioStep, handleAudioPlay, if_pos heq]
      by_cases hcb : c = b
      · simp [hcb]
      · simp only [if_neg hcb]
        by_cases hc : (audioRun evs).playing c = true
        · have := (hinv c).1 hc
          rw [heq] at this
          exact absurd (Option.some_inj.1 this).symm hcb
        · exact Bool.eq_false_iff.2 hc

theorem c7_audio_mutual_exclusion_witness :
    (audioStep (audioRun [AudioEvent.click 0]) (AudioEvent.click 1)).active = some 1 ∧
    (audioStep (audioRun [AudioEvent.click 0]) (AudioEvent.click 1)).playing 1 = true ∧
    (audioStep (audioRun [AudioEvent.click 0]) (AudioEvent.click 1)).playing 0 = false :=
  have h := (c7_audio_mutual_exclusion [AudioEvent.click 0]).2.1 0 1 (by rfl) (by decide)
  ⟨h.1, h.2.1, h.2.2.1⟩

/-! ### Precomputed stats and the performance table -/

/-- One parsed row of `factor_stats.csv`: the optional value of the
`Factor` column, and the numeric cells present, keyed by column name. -/
structure StatsRow (R : Type) where
  factor : Option String
  values : List (String × R)
deriving DecidableEq

/-- The row's value under one column, `undefined` (`none`) when the
column is absent from the row. -/
def StatsRow.getVal (row : StatsRow R) (col : String) : Option R :=
  (row.values.find? (fun p => p.1 == col)).map Prod.snd

/-- JavaScript truthiness of `row.Factor` for a string-valued cell: an
absent cell (`undefined`) and the empty string are falsy. -/
def truthyFactor (row : StatsRow R) : Bool :=
  match row.factor with
  | some s => !(s == "")
  | none => false

/-- `loadPrecomputedStats`: `allFactorStats = parsed.filter(row => row.Factor)`. -/
def loadPrecomputedStats (parsed : List (StatsRow R)) : List (StatsRow R) :=
  parsed.filter truthyFactor

/-- The `statsMap` of `updateAnalysisTable`:
`new Map(allFactorStats.map(s => [s.Factor, s]))` — for a duplicated
factor key the last row wins, so lookup scans the reversed list. -/
def statsLookup (stats : List (StatsRow R)) (name : String) : Option (StatsRow R) :=
  stats.reverse.find? (fun row => row.factor == some name)

/-- The metric columns the analysis table displays. -/
def displayedMetrics : List String :=
  ["Average Return (Ann. %)", "Volatility (Ann. %)", "Sharpe Ratio",
   "AnnoyanceScore", "CAPM Alpha (Ann. %)", "FF4 Alpha (Ann. %)"]

/-- `formatCell(value, rank)`: the cell shows the (rounded) value and
optionally the rank.  `value.toFixed(2)` throws a `TypeError` when the
metric value is absent (`undefined`) — modelled as `none`: no cell is
produced.  A missing or falsy (zero) rank merely drops the rank text,
because the rank is guarded by `rank ? ... : ''`. -/
def formatCell (value : Option R) (rank : Option R) : Option (R × Option R) :=
  match value with
  | none => none
  | some v => some (v, match rank with
      | some r => if r = 0 then none else some r
      | none => none)

/-- The cells of one analysis-table row: every displayed metric must
format; a single absent metric value throws, producing no row. -/
def renderCells (row : StatsRow R) : Option (List (R × Option R)) :=
  displayedMetrics.mapM
    (fun m => formatCell (StatsRow.getVal row m) (StatsRow.getVal row (m ++ "_rank")))

/-- Observable outcome of `updateAnalysisTable`: the diagnostics warned,
the rows actually inserted in the DOM (in order), and whether the update
aborted with a thrown `TypeError`. -/
structure TableResult (R : Type) where
  warns : List String
  rows : List (String × List (R × Option R))
  crashed : Bool
deriving DecidableEq

/-- The `selectedFactors.forEach` loop of `updateAnalysisTable`: a factor
without a stats row is warned about and skipped; a factor whose row fails
to format throws, keeping what was already inserted and dropping the rest
of the selection. -/
def updateTableGo (stats : List (StatsRow R)) :
    List String → List String → List (String × List (R × Option R)) → TableResult R
  | [], warns, rows => ⟨warns.reverse, rows.reverse, false⟩
  | name :: rest, warns, rows =>
    match statsLookup stats name with
    | none => updateTableGo stats rest (name :: warns) rows
    | some row =>
      match renderCells row with
      | none => ⟨warns.reverse, rows.reverse, true⟩
      | some cells => updateTableGo stats rest warns ((name, cells) :: rows)

/-- `updateAnalysisTable(selectedFactors)`. -/
def updateAnalysisTable (stats : List (StatsRow R)) (sel : List String) : TableResult R :=
  updateTableGo stats sel [] []

/-- When every selected factor's retained stats row formats completely,
the table update finishes without throwing, warning exactly about the
factors without a stats row and rendering exactly the ones with one. -/
theorem updateTableGo_spec (stats : List (StatsRow R)) :
    ∀ (l : List String) (warns : List String)
      (rows : List (String × List (R × Option R))),
      (∀ name ∈ l, ∀ row, statsLookup stats name = some row → renderCells row ≠ none) →
      updateTableGo stats l warns rows =
        ⟨warns.reverse ++ l.filter (fun n => (statsLookup stats n).isNone),
         rows.reverse ++ l.filterMap (fun n => (statsLookup stats n).bind
           (fun row => (renderCells row).map (fun cells => (n, cells)))),
         false⟩
  | [], warns, rows, _ => by simp [updateTableGo]
  | name :: rest, warns, rows, hc => by
      have hcrest : ∀ nm ∈ rest, ∀ row, statsLookup stats nm = some row →
          renderCells row ≠ none := by
        intro nm hnm row hrow
        exact hc nm (List.mem_cons_of_mem _ hnm) row hrow
      cases hsl : statsLookup stats name with
      | none =>
          have := updateTableGo_spec stats rest (name :: warns) rows hcrest
          simp only [updateTableGo, hsl]
          rw [this]
          simp [hsl, List.filter_cons, List.filterMap_cons]
      | some row =>
          cases hrc : renderCells row with
          | none => exact absurd hrc (hc name (List.mem_cons_self _ _) row hsl)
          | some cells =>
              have := updateTableGo_spec stats rest warns ((name, cells) :: rows) hcrest
              simp only [updateTableGo, hsl, hrc]
              rw [this]
              simp [hsl, hrc, List.filter_cons, List.filterMap_cons]

/-- C8 (amended): the engine and table degrade instead of aborting — a
selected factor with a missing or empty series contributes no dataset
while every other selected factor's dataset is still produced, and, as
long as every retained stats row of the selection formats completely
(the C9 `TypeError` does not fire), the table update finishes without
throwing, warns exactly about the factors without a stats row, and still
renders every selected factor that has one. -/
theorem c8_degrade (sel : List String) (store : Store R) (stats : List (StatsRow R))
    (hcomplete : ∀ name ∈ sel, ∀ row, statsLookup stats name = some row →
      renderCells row ≠ none) :
    (∀ name : String, (Store.get store name = none ∨ Store.get store name = some []) →
      ∀ p ∈ align sel store, p.1 ≠ name) ∧
    (∀ name ∈ sel, ∀ s : Series R, Store.get store name = some s → s ≠ [] →
      ∃ pts, (name, pts) ∈ align sel store) ∧
    (updateAnalysisTable stats sel).crashed = false ∧
    (∀ name ∈ sel, statsLookup stats name = none →
      name ∈ (updateAnalysisTable stats sel).warns ∧
      ∀ row ∈ (updateAnalysisTable stats sel).rows, row.1 ≠ name) ∧
    (∀ name ∈ sel, ∀ row, statsLookup stats name = some row →
      ∃ cells, (name, cells) ∈ (updateAnalysisTable stats sel).rows) := by
  have htab : updateAnalysisTable stats sel =
      ⟨sel.filter (fun n => (statsLookup stats n).isNone),
       sel.filterMap (fun n => (statsLookup stats n).bind
         (fun row => (renderCells row).map (fun cells => (n, cells)))),
       false⟩ := by
    unfold updateAnalysisTable
    rw [updateTableGo_spec stats sel [] [] hcomplete]
    simp
  refine ⟨?_, ?_, ?_, ?_, ?_⟩
  · intro name hbad p hp hp1
    obtain ⟨nm, _hnm, hmap⟩ := List.mem_filterMap.1 hp
    obtain ⟨pts, hfp, hpair⟩ := Option.map_eq_some'.1 hmap
    obtain ⟨s, hget, hne, _⟩ := factorDataPoints_eq_some hfp
    have hnm1 : p.1 = nm := by rw [← hpair]
    rw [hp1] at hnm1
    rw [← hnm1] at hget
    rcases hbad with h | h
    · rw [h] at hget; cases hget
    · rw [h] at hget
      exact hne (Option.some_inj.1 hget).symm
  · intro name hmem s hget hne
    refine ⟨alignPoints (returnMap s) none (masterDateArray sel store),
      List.mem_filterMap.2 ⟨name, hmem, ?_⟩⟩
    have hempty : s.isEmpty = false := by
      cases s with
      | nil => exact absurd rfl hne
      | cons a t => rfl
    unfold factorDataPoints
    rw [hget]
    simp [hempty]
  · rw [htab]
  · intro name hmem hnone
    rw [htab]
    constructor
    · refine List.mem_filter.2 ⟨hmem, ?_⟩
      rw [hnone]
      rfl
    · intro row hrow
      obtain ⟨n, _hn, hb⟩ := List.mem_filterMap.1 hrow
      obtain ⟨row0, hsl, hmap0⟩ := Option.bind_eq_some.1 hb
      obtain ⟨cells, _, hpair0⟩ := Option.map_eq_some'.1 hmap0
      have hrow1 : row.1 = n := by rw [← hpair0]
      rw [hrow1]
      intro hnn
      rw [hnn, hnone] at hsl
      cases hsl
  · intro name hmem row hrow
    cases hrc : renderCells row with
    | none => exact absurd hrc (hcomplete name hmem row hrow)
    | some cells =>
        refine ⟨cells, ?_⟩
        rw [htab]
        refine List.mem_filterMap.2 ⟨name, hmem, ?_⟩
        rw [hrow]
        simp [hrc]

/-- Stats row for factor B with every displayed metric except
`AnnoyanceScore`. -/
def brow : StatsRow ℤ :=
  ⟨some "B", [("Average Return (Ann. %)", 8), ("Volatility (Ann. %)", 12),
    ("Sharpe Ratio", 1), ("CAPM Alpha (Ann. %)", 2), ("FF4 Alpha (Ann. %)", 3)]⟩

/-- Stats row for factor C with every displayed metric present. -/
def crow : StatsRow ℤ :=
  ⟨some "C", [("Average Return (Ann. %)", 8), ("Volatility (Ann. %)", 12),
    ("Sharpe Ratio", 1), ("AnnoyanceScore", 5), ("CAPM Alpha (Ann. %)", 2),
    ("FF4 Alpha (Ann. %)", 3)]⟩

/-- Loaded stats table containing rows for B (incomplete) and C
(complete), but none for A. -/
def cstats9 : List (StatsRow ℤ) := [brow, crow]

/-- C8 counterexample: selecting A (no stats row), B (row lacking the
`AnnoyanceScore` metric) and C (complete row), the update warns about A
and then throws while formatting B's row, so C — the rest of the
selection, with a perfectly renderable row — is never rendered: the
claim's "the rest of the selection still renders" fails. -/
theorem c8_counterexample :
    updateAnalysisTable cstats9 ["A", "B", "C"]
      = ⟨["A"], [], true⟩ ∧
    (statsLookup cstats9 "C").isSome = true ∧
    renderCells crow ≠ none := by decide

/-- Stats table with only C's (complete) row. -/
def wstats8 : List (StatsRow ℤ) := [crow]

theorem c8_degrade_witness :
    ∃ cells, ("C", cells) ∈ (updateAnalysisTable wstats8 ["A", "C"]).rows :=
  (c8_degrade ["A", "C"] wstore wstats8 (by
    intro name hname row hrow
    rcases List.mem_cons.1 hname with rfl | h2
    · have hA : statsLookup wstats8 "A" = none := by decide
      rw [hA] at hrow
      cases hrow
    · rcases List.mem_cons.1 h2 with rfl | h3
      · have hC : statsLookup wstats8 "C" = some crow := by decide
        rw [hC] at hrow
        rw [← Option.some_inj.1 hrow]
        decide
      · cases h3)).2.2.2.2 "C" (by decide) crow (by decide)

/-- C9: stats loading does drop every parsed row lacking a `Factor`
value (first conjunct), but a retained row missing a displayed metric
does not yield a "not available" cell: `value.toFixed(2)` throws, no
cell is produced, and the whole table update aborts (remaining
conjuncts) — evaluated here at factor B's row, which lacks
`AnnoyanceScore`. -/
theorem c9_missing_metric_throws :
    loadPrecomputedStats ([⟨none, [("Sharpe Ratio", 1)]⟩] : List (StatsRow ℤ)) = [] ∧
    statsLookup cstats9 "B" = some brow ∧
    formatCell (StatsRow.getVal brow "AnnoyanceScore")
      (StatsRow.getVal brow "AnnoyanceScore_rank") = none ∧
    renderCells brow = none ∧
    (updateAnalysisTable cstats9 ["B"]).crashed = true := by decide

end FactorViz
